import Mathlib

/-!
Shallow embedding of the style-cascade and layout core of moxie-native
(src/style/mod.rs and src/layout/mod.rs), with theorems checking the
natural-language specification against that code.

Lengths and coordinates (`f32` in the source, abstract resolution-independent
units in the spec) are modelled as integers (any fixed sub-unit scale).  Fallible operations that
`unwrap`/panic in the source are modelled as `Option`-returning functions
where `none` stands for the abort.
-/

/-- Color, from crate::Color (an external sibling module of the two source
files).  Modelled as an opaque rgba record; only the constants `black` and
`clear` used by the style defaults matter here. -/
structure Color where
  red : Nat
  green : Nat
  blue : Nat
  alpha : Nat
deriving DecidableEq, Repr

def Color.black : Color := ⟨0, 0, 0, 255⟩

def Color.clear : Color := ⟨0, 0, 0, 0⟩

/-- `LogicalLength` from src/layout/mod.rs (`Length<f32, LogicalPixel>`),
modelled as an integer length. -/
abbrev LogicalLength := Int

/-- `LogicalSideOffsets` from src/layout/mod.rs: four independent edge
offsets. -/
structure LogicalSideOffsets where
  top : Int
  right : Int
  bottom : Int
  left : Int
deriving DecidableEq, Repr

def LogicalSideOffsets.new_all_same (v : Int) : LogicalSideOffsets := ⟨v, v, v, v⟩

/-- `LogicalSize` from src/layout/mod.rs. -/
structure LogicalSize where
  width : Int
  height : Int
deriving DecidableEq, Repr

/-- `LogicalPoint` from src/layout/mod.rs. -/
structure LogicalPoint where
  x : Int
  y : Int
deriving DecidableEq, Repr

/-- `Direction` from src/style/mod.rs. -/
inductive Direction where
  | Vertical
  | Horizontal
deriving DecidableEq, Repr

/-- `InlineValues` from src/style/mod.rs (an empty struct). -/
structure InlineValues where
deriving DecidableEq, Repr

/-- `BlockValues` from src/style/mod.rs. -/
structure BlockValues where
  direction : Direction
  margin : LogicalSideOffsets
  padding : LogicalSideOffsets
  width : Option LogicalLength
  height : Option LogicalLength
  min_width : Option LogicalLength
  min_height : Option LogicalLength
  max_width : Option LogicalLength
  max_height : Option LogicalLength
deriving DecidableEq, Repr

/-- `impl Default for BlockValues` from src/style/mod.rs. -/
def BlockValues.default : BlockValues :=
  { direction := Direction.Vertical
    margin := LogicalSideOffsets.new_all_same 0
    padding := LogicalSideOffsets.new_all_same 0
    width := none
    height := none
    min_width := none
    min_height := none
    max_width := none
    max_height := none }

/-- `DisplayType` from src/style/mod.rs. -/
inductive DisplayType where
  | Inline (v : InlineValues)
  | Block (v : BlockValues)
deriving DecidableEq, Repr

/-- `ComputedValues` from src/style/mod.rs (the spec's `ResolvedAttributes`). -/
structure ComputedValues where
  display : DisplayType
  text_size : LogicalLength
  text_color : Color
  background_color : Color
  border_radius : LogicalLength
  border_thickness : LogicalSideOffsets
  border_color : Color
deriving DecidableEq, Repr

/-- `impl Default for ComputedValues` from src/style/mod.rs. -/
def ComputedValues.default : ComputedValues :=
  { display := DisplayType.Block BlockValues.default
    text_size := 16
    text_color := Color.black
    background_color := Color.clear
    border_radius := 0
    border_thickness := LogicalSideOffsets.new_all_same 0
    border_color := Color.clear }

/-- `Style` from src/style/mod.rs: a `&'static StyleData`.  The static
reference is modelled as an allocation address; the pointee is looked up in a
`StyleHeap` environment standing for the program's static memory. -/
structure Style where
  addr : Nat
deriving DecidableEq, Repr

/-- `impl PartialEq for Style` from src/style/mod.rs: `std::ptr::eq` on the
two `&'static StyleData` references, i.e. equality of allocation addresses,
never of content. -/
def Style.eq (a b : Style) : Bool := a.addr == b.addr

mutual
/-- The element tree: an external collaborator (crate::dom).  `elem` carries
the node's id (standing for node identity, used as the key of its
`computed_values` write slot), the value its `create_computed_values` method
returns (the element-type default), the optional `Style` reference returned
by `node.style()`, and the ordered structural children.  `text` is
non-element leaf content (`DynamicNode::Text`). -/
inductive DomNode where
  | elem (id : Nat) (createComputedValues : ComputedValues) (style : Option Style)
      (children : DomForest)
  | text (s : String)
inductive DomForest where
  | nil
  | cons (head : DomNode) (tail : DomForest)
end

/-- The value `node.create_computed_values()` returns for this node. -/
def DomNode.create : DomNode → ComputedValues
  | .elem _ cv _ _ => cv
  | .text _ => ComputedValues.default

/-- The value `node.style()` returns for this node. -/
def DomNode.styleOf : DomNode → Option Style
  | .elem _ _ st _ => st
  | .text _ => none

/-- The node's identity (the key of its `computed_values` slot). -/
def DomNode.idOf : DomNode → Nat
  | .elem i _ _ _ => i
  | .text _ => 0

/-- Modelled from the spec: `CommonAttributes` (src/style/attributes.rs is
not among the available sources).  Per the spec an attribute-set pairs each
resolvable property with an optional value; a property is either present or
absent. -/
structure CommonAttributes where
  display : Option DisplayType
  text_size : Option LogicalLength
  text_color : Option Color
  background_color : Option Color
  border_radius : Option LogicalLength
  border_thickness : Option LogicalSideOffsets
  border_color : Option Color
deriving DecidableEq, Repr

/-- The attribute-set with every property absent. -/
def CommonAttributes.empty : CommonAttributes :=
  ⟨none, none, none, none, none, none, none⟩

/-- Modelled from the spec: `CommonAttributes::apply` (src/style/attributes.rs
is not among the available sources).  Every present property unconditionally
overwrites the corresponding field of the working `ComputedValues`; absent
properties leave their field untouched. -/
def CommonAttributes.apply (a : CommonAttributes) (c : ComputedValues) : ComputedValues :=
  { display := a.display.getD c.display
    text_size := a.text_size.getD c.text_size
    text_color := a.text_color.getD c.text_color
    background_color := a.background_color.getD c.background_color
    border_radius := a.border_radius.getD c.border_radius
    border_thickness := a.border_thickness.getD c.border_thickness
    border_color := a.border_color.getD c.border_color }

/-- `SubStyle` from src/style/mod.rs: a selector predicate over the node plus
an attribute-set. -/
structure SubStyle where
  selector : DomNode → Bool
  attributes : CommonAttributes

/-- `StyleData` from src/style/mod.rs (the debugging metadata `file`/`line`
is irrelevant to the cascade and omitted). -/
structure StyleData where
  attributes : CommonAttributes
  sub_styles : List SubStyle
  name : String

/-- The program's static memory holding the globally defined `StyleData`
allocations, indexed by address. -/
abbrev StyleHeap := Nat → StyleData

/-- The `for sub_style in style.sub_styles` loop of
`StyleEngine::update_style` (src/style/mod.rs lines 147-151): each sub-style
whose selector matches the node has its attribute-set applied, in declaration
order. -/
def applySubStyles (node : DomNode) (c : ComputedValues) : List SubStyle → ComputedValues
  | [] => c
  | ss :: rest =>
    applySubStyles node (if ss.selector node then ss.attributes.apply c else c) rest

/-- Lines 139-142 of src/style/mod.rs: with a parent present, overwrite
exactly `text_size` and `text_color` from the parent's resolved values. -/
def inheritFrom (parent : Option ComputedValues) (c : ComputedValues) : ComputedValues :=
  match parent with
  | some p => { c with text_size := p.text_size, text_color := p.text_color }
  | none => c

/-- The per-node body of `StyleEngine::update_style` (src/style/mod.rs lines
137-152): the `ComputedValues` the cascade publishes onto `node` given the
parent's already-resolved values. -/
def resolveNode (heap : StyleHeap) (node : DomNode) (parent : Option ComputedValues) :
    ComputedValues :=
  let computed := inheritFrom parent node.create
  match node.styleOf with
  | none => computed
  | some sty =>
    let sd := heap sty.addr
    applySubStyles node (sd.attributes.apply computed) sd.sub_styles

/-- The ordered list of attribute-sets that `update_style` applies at `node`:
the referenced rule's base set, then the attribute-sets of its matching
sub-styles in declaration order (empty when no rule is referenced). -/
def matchingSets (heap : StyleHeap) (node : DomNode) : List CommonAttributes :=
  match node.styleOf with
  | none => []
  | some sty =>
    let sd := heap sty.addr
    sd.attributes :: (sd.sub_styles.filter (fun ss => ss.selector node)).map
      (fun ss => ss.attributes)

/-- Whether any applied attribute-set at `node` sets the property read by
`f`. -/
def setsProp {α : Type} (f : CommonAttributes → Option α) (heap : StyleHeap)
    (node : DomNode) : Bool :=
  (matchingSets heap node).any (fun a => (f a).isSome)

mutual
/-- `StyleEngine::update_style` (src/style/mod.rs lines 136-161), viewed
through its side effect: the ordered log of `computed_values().set` writes
(element id paired with the whole value written). -/
def StyleEngine.update_style (heap : StyleHeap) :
    DomNode → Option ComputedValues → List (Nat × ComputedValues)
  | .elem i cv st cs, parent =>
    let computed := resolveNode heap (.elem i cv st cs) parent
    (i, computed) :: StyleEngine.updateStyleForest heap cs computed
  | .text _, _ => []
def StyleEngine.updateStyleForest (heap : StyleHeap) :
    DomForest → ComputedValues → List (Nat × ComputedValues)
  | .nil, _ => []
  | .cons h t, p =>
    (match h with
      | .elem i cv st cs => StyleEngine.update_style heap (.elem i cv st cs) (some p)
      | .text _ => []) ++ StyleEngine.updateStyleForest heap t p
end

mutual
/-- The element ids of the subtree, in the pre-order the cascade visits them;
text leaves contribute nothing. -/
def elemIds : DomNode → List Nat
  | .elem i _ _ cs => i :: elemIdsForest cs
  | .text _ => []
def elemIdsForest : DomForest → List Nat
  | .nil => []
  | .cons h t => elemIds h ++ elemIdsForest t
end

/-- `StyleEngine::update` (src/style/mod.rs lines 169-175): enters an
environment carrying the root node and the size, then runs `run_styling`,
which extracts only the node and calls `update_style(node, None)`.  The size
is threaded into the environment but never read by the styling pass. -/
def StyleEngine.update (heap : StyleHeap) (node : DomNode) (size : LogicalSize) :
    List (Nat × ComputedValues) :=
  StyleEngine.update_style heap node none

/-- `Glyph` from src/layout/mod.rs: a glyph index and an advance-based offset
within its fragment. -/
structure Glyph where
  index : Nat
  offset : LogicalPoint
deriving DecidableEq, Repr

/-- The font reference carried by a `TextFragment` (`skribo::FontRef` in the
source, an external font-service handle); modelled as the name of the loaded
font source. -/
abbrev FontRef := String

/-- `TextFragment` from src/layout/mod.rs: one line of shaped text. -/
structure TextFragment where
  font : FontRef
  glyphs : List Glyph
deriving DecidableEq, Repr

/-- `LayoutText` from src/layout/mod.rs. -/
structure LayoutText where
  fragments : List TextFragment
  size : Int
deriving DecidableEq, Repr

/-- `RenderData` from src/layout/mod.rs; the `AnyNode` back-references are
modelled by the owning element's id. -/
inductive RenderData where
  | text (t : LayoutText) (parent : Nat)
  | node (n : Nat)
deriving DecidableEq, Repr

/-- `LayoutTreeNode` from src/layout/mod.rs (the spec's `Box`), together with
its `LayoutChild` edges, which are pairs of a position relative to this box's
origin and the child box.  The source wraps nodes in `EqualRc`, a
reference-counted handle compared by value; plain values compared by `Eq`
model exactly that. -/
inductive LayoutTreeNode where
  | mk (size : LogicalSize) (margin : LogicalSideOffsets) (render : RenderData)
      (children : List (LogicalPoint × LayoutTreeNode))

/-- The computed size of the box. -/
def LayoutTreeNode.size : LayoutTreeNode → LogicalSize
  | .mk s _ _ _ => s

/-- The margin of the box, taken verbatim from its `BlockValues.margin`. -/
def LayoutTreeNode.margin : LayoutTreeNode → LogicalSideOffsets
  | .mk _ m _ _ => m

/-- The render data of the box. -/
def LayoutTreeNode.render : LayoutTreeNode → RenderData
  | .mk _ _ r _ => r

/-- The positioned children of the box. -/
def LayoutTreeNode.children : LayoutTreeNode → List (LogicalPoint × LayoutTreeNode)
  | .mk _ _ _ c => c

/-- Modelled from the spec: the default font collection (skribo
`FontCollection` plus the font-kit loading machinery are external services;
src/layout/text.rs is not among the available sources).  The collection is an
immutable handle carrying the shaping metrics the inline algorithm consumes:
a per-glyph advance and a line height, both as fractions of the text size,
plus the name of the font source it was parsed from. -/
structure FontCollection where
  advanceScale : Int
  lineScale : Int
  source : String
deriving DecidableEq, Repr

/-- The `once!` body of `LayoutEngine::run_layout` (src/layout/mod.rs lines
84-96): parse the embedded `ComicNeue-Regular.ttf` asset and build the
default collection.  Deterministic: the embedded asset never changes. -/
def loadFontCollection : FontCollection :=
  { advanceScale := 1, lineScale := 2, source := "ComicNeue-Regular.ttf" }

/-- The caching state of `LayoutEngine`'s moxie `Runtime`: the memoized
`once!` slot holding the default font collection, plus a count of how many
times the embedded font asset has been parsed (for stating the
parsed-exactly-once property). -/
structure EngineState where
  fontCollection : Option FontCollection
  parseCount : Nat
deriving DecidableEq, Repr

/-- The state of a freshly constructed `LayoutEngine` (`LayoutEngine::new`):
nothing cached, nothing parsed. -/
def EngineState.init : EngineState := ⟨none, 0⟩

/-- The `once!` memoization of src/layout/mod.rs lines 84-96: on the first
invocation run the body (parsing the embedded asset) and cache the handle;
on every later invocation return the cached handle unchanged. -/
def onceFontCollection (st : EngineState) : FontCollection × EngineState :=
  match st.fontCollection with
  | some c => (c, st)
  | none => (loadFontCollection, ⟨some loadFontCollection, st.parseCount + 1⟩)

/-- The published `ResolvedAttributes` store the layout engine reads through
`node.computed_values().get()`: per element id, the optional current value of
its write slot. -/
abbrev ComputedStore := Nat → Option ComputedValues

/-- Main-axis start offset (top for vertical stacking, left for horizontal). -/
def axisMainStart : Direction → LogicalSideOffsets → Int
  | .Vertical, o => o.top
  | .Horizontal, o => o.left

/-- Main-axis end offset. -/
def axisMainEnd : Direction → LogicalSideOffsets → Int
  | .Vertical, o => o.bottom
  | .Horizontal, o => o.right

/-- Cross-axis start offset. -/
def axisCrossStart : Direction → LogicalSideOffsets → Int
  | .Vertical, o => o.left
  | .Horizontal, o => o.top

/-- Cross-axis end offset. -/
def axisCrossEnd : Direction → LogicalSideOffsets → Int
  | .Vertical, o => o.right
  | .Horizontal, o => o.bottom

/-- The size component along the layout direction. -/
def axisMainSize : Direction → LogicalSize → Int
  | .Vertical, s => s.height
  | .Horizontal, s => s.width

/-- The size component across the layout direction. -/
def axisCrossSize : Direction → LogicalSize → Int
  | .Vertical, s => s.width
  | .Horizontal, s => s.height

/-- Build a size from main- and cross-axis components. -/
def axisSize : Direction → Int → Int → LogicalSize
  | .Vertical, m, c => ⟨c, m⟩
  | .Horizontal, m, c => ⟨m, c⟩

/-- Build a point from main- and cross-axis coordinates. -/
def axisPoint : Direction → Int → Int → LogicalPoint
  | .Vertical, m, c => ⟨c, m⟩
  | .Horizontal, m, c => ⟨m, c⟩

/-- The main-axis coordinate of a point. -/
def axisMainCoord : Direction → LogicalPoint → Int
  | .Vertical, p => p.y
  | .Horizontal, p => p.x

/-- A child's outer extent along the layout direction: leading margin plus
box size plus trailing margin. -/
def outerMain (d : Direction) (l : LayoutTreeNode) : Int :=
  axisMainStart d l.margin + axisMainSize d l.size + axisMainEnd d l.margin

/-- A child's outer extent across the layout direction. -/
def outerCross (d : Direction) (l : LayoutTreeNode) : Int :=
  axisCrossStart d l.margin + axisCrossSize d l.size + axisCrossEnd d l.margin

/-- Sum of the children's outer extents along the layout direction. -/
def totalMainOf (d : Direction) (children : List (LogicalPoint × LayoutTreeNode)) : Int :=
  (children.map (fun c => outerMain d c.2)).sum

/-- Maximum of the children's outer extents across the layout direction. -/
def maxCrossOf (d : Direction) (children : List (LogicalPoint × LayoutTreeNode)) : Int :=
  (children.map (fun c => outerCross d c.2)).foldl max 0

/-- Clamp a content-derived length to the optional `[min, max]` bounds. -/
def clampOpt (v : Int) (mn mx : Option Int) : Int :=
  let v1 := match mx with
    | some m => min v m
    | none => v
  match mn with
  | some m => max v1 m
  | none => v1

/-- One axis of step 1/4 of the block algorithm: an explicitly set length is
used as is; an "auto" length is resolved from content and only then clamped
to the optional min/max bounds. -/
def sizeAxis (explicit mn mx : Option Int) (derived : Int) : Int :=
  match explicit with
  | some w => w
  | none => clampOpt derived mn mx

/-- The explicit length of the block along its layout direction. -/
def blockMainLen (b : BlockValues) : Option Int :=
  match b.direction with
  | .Vertical => b.height
  | .Horizontal => b.width

/-- The explicit length of the block across its layout direction. -/
def blockCrossLen (b : BlockValues) : Option Int :=
  match b.direction with
  | .Vertical => b.width
  | .Horizontal => b.height

/-- The min bound along the layout direction. -/
def blockMainMin (b : BlockValues) : Option Int :=
  match b.direction with
  | .Vertical => b.min_height
  | .Horizontal => b.min_width

/-- The max bound along the layout direction. -/
def blockMainMax (b : BlockValues) : Option Int :=
  match b.direction with
  | .Vertical => b.max_height
  | .Horizontal => b.max_width

/-- The min bound across the layout direction. -/
def blockCrossMin (b : BlockValues) : Option Int :=
  match b.direction with
  | .Vertical => b.min_width
  | .Horizontal => b.min_height

/-- The max bound across the layout direction. -/
def blockCrossMax (b : BlockValues) : Option Int :=
  match b.direction with
  | .Vertical => b.max_width
  | .Horizontal => b.max_height

/-- Modelled from the spec (steps 1, 4 and 5 of the block algorithm;
src/layout/block.rs is not among the available sources): assemble the block's
box from its positioned children.  Each axis uses the explicit length when
set, else the children's summed (along direction) or maximal (across
direction) outer extents plus the padding, clamped after being computed from
content.  The margin is taken verbatim from `BlockValues.margin`. -/
def finishBlock (id : Nat) (b : BlockValues)
    (children : List (LogicalPoint × LayoutTreeNode)) : LayoutTreeNode :=
  let d := b.direction
  let derivedMain := totalMainOf d children + axisMainStart d b.padding + axisMainEnd d b.padding
  let derivedCross := maxCrossOf d children + axisCrossStart d b.padding + axisCrossEnd d b.padding
  let mainLen := sizeAxis (blockMainLen b) (blockMainMin b) (blockMainMax b) derivedMain
  let crossLen := sizeAxis (blockCrossLen b) (blockCrossMin b) (blockCrossMax b) derivedCross
  LayoutTreeNode.mk (axisSize d mainLen crossLen) b.margin (RenderData.node id) children

/-- The width the block algorithm derives from content (plus horizontal
padding) when `width` is "auto": summed outer extents for a horizontal
container, maximal outer extent for a vertical one. -/
def contentDerivedWidth (b : BlockValues) (children : List (LogicalPoint × LayoutTreeNode)) :
    Int :=
  match b.direction with
  | .Horizontal => totalMainOf .Horizontal children + b.padding.left + b.padding.right
  | .Vertical => maxCrossOf .Vertical children + b.padding.left + b.padding.right

/-- Modelled from the spec: one unit of the inline greedy line packer — a
shaped word (glyphs with advance-based offsets, plus its shaped width) or an
opaque box produced by recursively laying out a nested inline child element
(src/layout/inline.rs is not among the available sources). -/
inductive InlineUnit where
  | word (glyphs : List Glyph) (width : Int)
  | child (layout : LayoutTreeNode)

/-- Modelled from the spec: shape one contiguous word at the given text size
using the collection's metrics, producing glyphs with advance-based offsets. -/
def shapeWord (fc : FontCollection) (textSize : Int) (w : List Char) : InlineUnit :=
  let adv := fc.advanceScale * textSize
  InlineUnit.word
    (w.enum.map (fun ic => Glyph.mk ic.2.toNat ⟨adv * ic.1, 0⟩))
    (adv * w.length)

/-- The width an inline unit occupies in its line (a nested box is opaque and
occupies its outer width). -/
def unitWidth : InlineUnit → Int
  | .word _ w => w
  | .child l => l.margin.left + l.size.width + l.margin.right

/-- Modelled from the spec (step 2 of the inline algorithm): greedily pack
units into lines, starting a new line when the next unit would exceed the
available width; a single unit wider than the available width is placed alone
on its own line, never split. -/
def packLines (maxW : Int) (units : List InlineUnit) : List (List InlineUnit) :=
  let step := fun (acc : List (List InlineUnit) × List InlineUnit × Int) (u : InlineUnit) =>
    let done := acc.1
    let cur := acc.2.1
    let curW := acc.2.2
    if cur.isEmpty then (done, [u], unitWidth u)
    else if maxW < curW + unitWidth u then (done ++ [cur], [u], unitWidth u)
    else (done, cur ++ [u], curW + unitWidth u)
  let fin := units.foldl step ([], [], 0)
  if fin.2.1.isEmpty then fin.1 else fin.1 ++ [fin.2.1]

/-- Shift a glyph's offset by the position of its word within the line and of
its line within the box. -/
def Glyph.shift (g : Glyph) (dx dy : Int) : Glyph :=
  ⟨g.index, ⟨g.offset.x + dx, g.offset.y + dy⟩⟩

/-- Modelled from the spec (step 3 of the inline algorithm): render one line
at vertical offset `y` into a `TextFragment` (the line's shaped glyphs, in
order, offset horizontally by the space consumed before them) plus positioned
boxes for the nested inline children on that line. -/
def lineRender (fc : FontCollection) (y : Int) (units : List InlineUnit) :
    TextFragment × List (LogicalPoint × LayoutTreeNode) :=
  let fin := units.foldl
    (fun (acc : Int × List Glyph × List (LogicalPoint × LayoutTreeNode)) u =>
      match u with
      | .word gs w => (acc.1 + w, acc.2.1 ++ gs.map (fun g => g.shift acc.1 y), acc.2.2)
      | .child l =>
        (acc.1 + (l.margin.left + l.size.width + l.margin.right),
          acc.2.1, acc.2.2 ++ [(LogicalPoint.mk (acc.1 + l.margin.left) y, l)]))
    (0, [], [])
  (⟨fc.source, fin.2.1⟩, fin.2.2)

/-- Modelled from the spec (steps 2-3 of the inline algorithm): assemble the
inline element's box from its shaped units: greedy lines, one `TextFragment`
per line, successive lines stacked vertically by the font's line metrics, box
size the union of all line extents; empty content yields a zero-size run. -/
def finishInline (fc : FontCollection) (id : Nat) (textSize : Int) (avail : LogicalSize)
    (units : List InlineUnit) : LayoutTreeNode :=
  let lines := packLines avail.width units
  let lh := fc.lineScale * textSize
  let rendered := lines.enum.map (fun il => lineRender fc (lh * il.1) il.2)
  let fragments := rendered.map Prod.fst
  let children := (rendered.map Prod.snd).flatten
  let width := (lines.map (fun l => (l.map unitWidth).sum)).foldl max 0
  let height := lh * lines.length
  LayoutTreeNode.mk ⟨width, height⟩ (LogicalSideOffsets.new_all_same 0)
    (RenderData.text ⟨fragments, textSize⟩ id) children

/-- Split a text leaf into its contiguous words for shaping. -/
def splitWords (s : String) : List String :=
  (s.splitOn " ").filter (fun w => decide (w ≠ ""))

mutual
/-- The per-element dispatch of the layout engine (src/layout/mod.rs lines
100-107): read the element's published `ResolvedAttributes` —
`node.computed_values().get().unwrap()`, where the `unwrap` of a never-
published slot is the fatal contract violation, modelled as `none` — and
dispatch on its `display` to the block or inline algorithm.  The block and
inline bodies (src/layout/block.rs and src/layout/inline.rs are not among the
available sources) are modelled from the spec, steps 1-5 of the block
algorithm and 1-4 of the inline algorithm. -/
def layoutNode (fc : FontCollection) (store : ComputedStore) :
    DomNode → LogicalSize → Option LayoutTreeNode
  | .text _, _ => none
  | .elem id cv st cs, avail =>
    match store id with
    | none => none
    | some values =>
      match values.display with
      | .Block b =>
        let content := LogicalSize.mk (avail.width - (b.padding.left + b.padding.right))
          (avail.height - (b.padding.top + b.padding.bottom))
        match layoutBlockForest fc store b content 0 cs with
        | none => none
        | some children => some (finishBlock id b children)
      | .Inline _ =>
        match inlineUnits fc store values.text_size avail cs with
        | none => none
        | some units => some (finishInline fc id values.text_size avail units)
/-- Modelled from the spec (steps 2-3 of the block algorithm;
src/layout/block.rs is not among the available sources): lay out the
container's structural element children in order along the direction, each
with the content box reduced by the space already consumed, positioning each
at the running main-axis offset plus its own leading margin, with the
container's padding offset; text leaves are not block children and are
skipped.  `consumed` is the main-axis space the previous siblings' outer
extents already occupy. -/
def layoutBlockForest (fc : FontCollection) (store : ComputedStore) (b : BlockValues)
    (content : LogicalSize) (consumed : Int) :
    DomForest → Option (List (LogicalPoint × LayoutTreeNode))
  | .nil => some []
  | .cons h t =>
    match h with
    | .text _ => layoutBlockForest fc store b content consumed t
    | .elem _ _ _ _ =>
      let d := b.direction
      let childAvail := axisSize d (axisMainSize d content - consumed) (axisCrossSize d content)
      match layoutNode fc store h childAvail with
      | none => none
      | some child =>
        let pos := axisPoint d
          (axisMainStart d b.padding + consumed + axisMainStart d child.margin)
          (axisCrossStart d b.padding + axisCrossStart d child.margin)
        match layoutBlockForest fc store b content (consumed + outerMain d child) t with
        | none => none
        | some rest => some ((pos, child) :: rest)
/-- Modelled from the spec (steps 1 and 4 of the inline algorithm;
src/layout/inline.rs is not among the available sources): turn the inline
element's content into the ordered packing units — each text leaf shaped word
by word at the resolved text size, each nested element recursively dispatched
and treated as one opaque unit. -/
def inlineUnits (fc : FontCollection) (store : ComputedStore) (textSize : Int)
    (avail : LogicalSize) : DomForest → Option (List InlineUnit)
  | .nil => some []
  | .cons h t =>
    match h with
    | .text s =>
      match inlineUnits fc store textSize avail t with
      | none => none
      | some rest =>
        some ((splitWords s).map (fun w => shapeWord fc textSize w.toList) ++ rest)
    | .elem _ _ _ _ =>
      match layoutNode fc store h avail with
      | none => none
      | some l =>
        match inlineUnits fc store textSize avail t with
        | none => none
        | some rest => some (InlineUnit.child l :: rest)
end

/-- `LayoutEngine::run_layout` (src/layout/mod.rs lines 82-109): fetch the
default font collection through the `once!` cache, then dispatch the root
element under it.  Returns the layout result (with `none` modelling the
`unwrap` panic on a missing `ResolvedAttributes`) together with the engine's
caching state after the call. -/
def LayoutEngine.run_layout (store : ComputedStore) (node : DomNode) (size : LogicalSize)
    (st : EngineState) : Option LayoutTreeNode × EngineState :=
  let c := onceFontCollection st
  (layoutNode c.1 store node size, c.2)

/-- `LayoutEngine::layout` (src/layout/mod.rs lines 113-119): enter the
environment carrying the root node and content size and run `run_layout`
once. -/
def LayoutEngine.layout (store : ComputedStore) (node : DomNode) (size : LogicalSize)
    (st : EngineState) : Option LayoutTreeNode × EngineState :=
  LayoutEngine.run_layout store node size st

/-- The engine state after a sequence of `layout` calls (each with its own
root and content size) against the same published store. -/
def runSeq (store : ComputedStore) : List (DomNode × LogicalSize) → EngineState → EngineState
  | [], st => st
  | c :: rest, st => runSeq store rest (LayoutEngine.run_layout store c.1 c.2 st).2

/-- A published store with no element resolved (no cascade has run). -/
def wEmptyStore : ComputedStore := fun _ => none

/-- A concrete style rule: the base set paints a background, one always-
matching sub-style rounds the border; text properties are never set. -/
def wRuleData : StyleData :=
  { attributes := { CommonAttributes.empty with background_color := some ⟨10, 20, 30, 40⟩ }
    sub_styles := [⟨fun _ => true, { CommonAttributes.empty with border_radius := some 2 }⟩]
    name := "w" }

/-- A static memory in which every address holds `wRuleData`; in particular
addresses 0 and 1 hold identical content. -/
def wStyleHeap : StyleHeap := fun _ => wRuleData

/-- A childless element referencing the rule at address 0. -/
def wNode : DomNode := DomNode.elem 7 ComputedValues.default (some (Style.mk 0)) DomForest.nil

/-- A parent's resolved values with distinctive text size and color. -/
def wParent : ComputedValues :=
  { ComputedValues.default with text_size := 20, text_color := ⟨9, 9, 9, 9⟩ }

/-- Block values with an explicit width of 30 and everything else default. -/
def w7b : BlockValues := { BlockValues.default with width := some 30 }

/-- Resolved attributes displaying as that block. -/
def w7v : ComputedValues := { ComputedValues.default with display := DisplayType.Block w7b }

/-- A store publishing `w7v` for every element. -/
def w7store : ComputedStore := fun _ => some w7v

/-- A childless element for the explicit-width layout. -/
def w7tree : DomNode := DomNode.elem 0 ComputedValues.default none DomForest.nil

/-- The box the explicit-width layout produces: width 30 as set, height 0
from (empty) content. -/
def w7result : LayoutTreeNode :=
  LayoutTreeNode.mk ⟨30, 0⟩ (LogicalSideOffsets.new_all_same 0) (RenderData.node 0) []

/-- Block values of the first stacked child: explicit 5 by 10. -/
def w8b1 : BlockValues := { BlockValues.default with width := some 5, height := some 10 }

/-- Block values of the second stacked child: explicit 5 by 20. -/
def w8b2 : BlockValues := { BlockValues.default with width := some 5, height := some 20 }

/-- Resolved attributes of the vertical container (all defaults: vertical
direction, zero margin and padding, auto size). -/
def w8v0 : ComputedValues := ComputedValues.default

/-- Resolved attributes of the first child. -/
def w8v1 : ComputedValues := { ComputedValues.default with display := DisplayType.Block w8b1 }

/-- Resolved attributes of the second child. -/
def w8v2 : ComputedValues := { ComputedValues.default with display := DisplayType.Block w8b2 }

/-- The published store for the three elements 0, 1, 2. -/
def w8store : ComputedStore :=
  fun i => if i = 0 then some w8v0 else if i = 1 then some w8v1 else some w8v2

/-- The vertical container (element 0) with the two block children. -/
def w8tree : DomNode :=
  DomNode.elem 0 ComputedValues.default none
    (DomForest.cons (DomNode.elem 1 ComputedValues.default none DomForest.nil)
      (DomForest.cons (DomNode.elem 2 ComputedValues.default none DomForest.nil) DomForest.nil))

/-- The children forest of `w8tree`, for stating hypotheses about the call. -/
def w8forest : DomForest :=
  DomForest.cons (DomNode.elem 1 ComputedValues.default none DomForest.nil)
    (DomForest.cons (DomNode.elem 2 ComputedValues.default none DomForest.nil) DomForest.nil)

/-- The box tree the stacked layout produces: children at y = 0 and y = 10,
container sized 5 by 30. -/
def w8result : LayoutTreeNode :=
  LayoutTreeNode.mk ⟨5, 30⟩ (LogicalSideOffsets.new_all_same 0) (RenderData.node 0)
    [(⟨0, 0⟩, LayoutTreeNode.mk ⟨5, 10⟩ (LogicalSideOffsets.new_all_same 0) (RenderData.node 1) []),
      (⟨0, 10⟩, LayoutTreeNode.mk ⟨5, 20⟩ (LogicalSideOffsets.new_all_same 0) (RenderData.node 2) [])]

/-- The value the last attribute-set in `sets` that sets the property read
by `g` assigns to it (`none` when no set in `sets` sets the property);
later sets take precedence over earlier ones. -/
def lastSetValue {α : Type} (g : CommonAttributes → Option α)
    (sets : List CommonAttributes) : Option α :=
  sets.foldl (fun acc a => (g a).or acc) none

theorem onceFontCollection_loaded (st : EngineState) (c : FontCollection)
    (h : st.fontCollection = some c) : onceFontCollection st = (c, st) := by
  simp [onceFontCollection, h]

theorem onceFontCollection_snd_loaded (st : EngineState) :
    ((onceFontCollection st).2).fontCollection = some (onceFontCollection st).1 := by
  rcases h : st.fontCollection with _ | c <;> simp [onceFontCollection, h]

/-- Claim C9: equality of `StyleRule` references is identity by reference,
not by value: `Style::eq` holds exactly when the two references are the same
`StyleData` allocation, every `Style` equals itself, and two rules with
identical content at distinct addresses compare unequal. -/
theorem style_eq_by_reference (heap : StyleHeap) (a b : Style) :
    (Style.eq a b = true ↔ a.addr = b.addr)
    ∧ Style.eq a a = true
    ∧ (heap a.addr = heap b.addr → a.addr ≠ b.addr → Style.eq a b = false) := by
  refine ⟨?_, ?_, ?_⟩
  · simp [Style.eq]
  · simp [Style.eq]
  · intro _ hne
    simpa [Style.eq] using hne

theorem style_eq_by_reference_witness :
    (wStyleHeap (Style.mk 0).addr = wStyleHeap (Style.mk 1).addr
      ∧ (Style.mk 0).addr ≠ (Style.mk 1).addr)
    ∧ Style.eq (Style.mk 0) (Style.mk 1) = false :=
  ⟨⟨rfl, by decide⟩, (style_eq_by_reference wStyleHeap (Style.mk 0) (Style.mk 1)).2.2 rfl
    (by decide)⟩

/-- Claim C10: the cascade's output is independent of the size argument of
`StyleEngine::update`: the size is threaded into the call environment but
never read by the styling pass, so any two sizes yield the same published
values on every element. -/
theorem styling_independent_of_size (heap : StyleHeap) (node : DomNode)
    (s1 s2 : LogicalSize) :
    StyleEngine.update heap node s1 = StyleEngine.update heap node s2 := rfl

/-- Claim C3: re-invoking `layout` with the same element subtree, the same
published attributes and the same available size yields a box tree equal by
value to the previous result: the recomputation is deterministic and the
engine's only state, the font cache, does not change the outcome. -/
theorem layout_idempotent (store : ComputedStore) (node : DomNode) (size : LogicalSize)
    (st : EngineState) :
    (LayoutEngine.layout store node size (LayoutEngine.layout store node size st).2).1
      = (LayoutEngine.layout store node size st).1 := by
  rcases h : st.fontCollection with _ | c <;>
    simp [LayoutEngine.layout, LayoutEngine.run_layout, onceFontCollection, h]

/-- Claim C4: invoking `layout` on an element whose `ResolvedAttributes` was
never published aborts (`computed_values().get().unwrap()` panics, modelled
as `none`): no error value and no box — in particular no box from substituted
default attributes — is returned. -/
theorem layout_missing_attributes_aborts (store : ComputedStore) (i : Nat)
    (cv : ComputedValues) (sref : Option Style) (cs : DomForest) (size : LogicalSize)
    (st : EngineState) (h : store i = none) :
    (LayoutEngine.layout store (DomNode.elem i cv sref cs) size st).1 = none := by
  simp [LayoutEngine.layout, LayoutEngine.run_layout, layoutNode, h]

theorem layout_missing_attributes_aborts_witness :
    wEmptyStore 0 = none
    ∧ (LayoutEngine.layout wEmptyStore
        (DomNode.elem 0 ComputedValues.default none DomForest.nil) ⟨64, 64⟩
        EngineState.init).1 = none :=
  ⟨rfl, layout_missing_attributes_aborts wEmptyStore 0 ComputedValues.default none
    DomForest.nil ⟨64, 64⟩ EngineState.init rfl⟩

theorem runSeq_loaded (store : ComputedStore) :
    ∀ (calls : List (DomNode × LogicalSize)) (st : EngineState) (c : FontCollection),
      st.fontCollection = some c → runSeq store calls st = st := by
  intro calls
  induction calls with
  | nil => intro st c h; rfl
  | cons hd tl ih =>
    intro st c h
    have h2 : (LayoutEngine.run_layout store hd.1 hd.2 st).2 = st := by
      simp [LayoutEngine.run_layout, onceFontCollection_loaded st c h]
    calc runSeq store (hd :: tl) st
        = runSeq store tl (LayoutEngine.run_layout store hd.1 hd.2 st).2 := rfl
      _ = st := by rw [h2]; exact ih st c h

/-- Claim C5: the default font collection is constructed lazily at the first
layout invocation and exactly once for the engine's remaining lifetime: any
nonempty sequence of calls from a fresh engine leaves the cache holding the
one parsed collection with a parse count of one, and every call on an
already-loaded state reuses the cached handle and leaves the state untouched
(never mutated or reloaded). -/
theorem font_collection_loaded_once (store : ComputedStore)
    (calls : List (DomNode × LogicalSize)) (h : calls ≠ []) :
    runSeq store calls EngineState.init = EngineState.mk (some loadFontCollection) 1
    ∧ ∀ (st : EngineState) (c : FontCollection) (n : DomNode) (s : LogicalSize),
        st.fontCollection = some c →
        (LayoutEngine.run_layout store n s st).2 = st ∧ (onceFontCollection st).1 = c := by
  constructor
  · match calls with
    | [] => exact absurd rfl h
    | hd :: tl =>
      have h1 : (LayoutEngine.run_layout store hd.1 hd.2 EngineState.init).2
          = EngineState.mk (some loadFontCollection) 1 := rfl
      calc runSeq store (hd :: tl) EngineState.init
          = runSeq store tl (LayoutEngine.run_layout store hd.1 hd.2 EngineState.init).2 := rfl
        _ = EngineState.mk (some loadFontCollection) 1 := by
            rw [h1]
            exact runSeq_loaded store tl _ loadFontCollection rfl
  · intro st c n s hc
    constructor
    · simp [LayoutEngine.run_layout, onceFontCollection_loaded st c hc]
    · simp [onceFontCollection_loaded st c hc]

theorem font_collection_loaded_once_witness :
    ([(DomNode.text "", LogicalSize.mk 0 0)] ≠ ([] : List (DomNode × LogicalSize)))
    ∧ runSeq wEmptyStore [(DomNode.text "", LogicalSize.mk 0 0)] EngineState.init
        = EngineState.mk (some loadFontCollection) 1 :=
  ⟨by simp, (font_collection_loaded_once wEmptyStore [(DomNode.text "", LogicalSize.mk 0 0)]
    (by simp)).1⟩

theorem applySubStyles_eq_foldl (node : DomNode) :
    ∀ (subs : List SubStyle) (c : ComputedValues),
      applySubStyles node c subs
        = ((subs.filter (fun ss => ss.selector node)).map (fun ss => ss.attributes)).foldl
            (fun c a => a.apply c) c := by
  intro subs
  induction subs with
  | nil => intro c; rfl
  | cons ss rest ih =>
    intro c
    by_cases hsel : ss.selector node
    · simp [applySubStyles, hsel, List.filter_cons, ih]
    · simp [applySubStyles, hsel, List.filter_cons, ih]

theorem resolveNode_eq_foldl (heap : StyleHeap) (node : DomNode)
    (parent : Option ComputedValues) :
    resolveNode heap node parent
      = (matchingSets heap node).foldl (fun c a => a.apply c)
          (inheritFrom parent node.create) := by
  rcases h : node.styleOf with _ | sty
  · simp [resolveNode, matchingSets, h]
  · simp [resolveNode, matchingSets, h, applySubStyles_eq_foldl]

theorem foldl_apply_field {α : Type} (f : ComputedValues → α) (g : CommonAttributes → Option α)
    (h : ∀ (a : CommonAttributes) (c : ComputedValues), f (a.apply c) = (g a).getD (f c)) :
    ∀ (sets : List CommonAttributes) (c : ComputedValues),
      f (sets.foldl (fun c a => a.apply c) c) = sets.foldl (fun v a => (g a).getD v) (f c) := by
  intro sets
  induction sets with
  | nil => intro c; rfl
  | cons a rest ih =>
    intro c
    simp only [List.foldl_cons, ih, h]

theorem foldl_getD_eq_lastSetValue {α : Type} (g : CommonAttributes → Option α) :
    ∀ (sets : List CommonAttributes) (o : Option α) (v : α),
      sets.foldl (fun v a => (g a).getD v) (o.getD v)
        = (sets.foldl (fun acc a => (g a).or acc) o).getD v := by
  intro sets
  induction sets with
  | nil => intro o v; rfl
  | cons a rest ih =>
    intro o v
    have key : (g a).getD (o.getD v) = ((g a).or o).getD v := by
      rcases g a with _ | w <;> simp
    simp only [List.foldl_cons, key, ih]

theorem field_foldl_lastSetValue {α : Type} (f : ComputedValues → α)
    (g : CommonAttributes → Option α)
    (h : ∀ (a : CommonAttributes) (c : ComputedValues), f (a.apply c) = (g a).getD (f c))
    (sets : List CommonAttributes) (c : ComputedValues) :
    f (sets.foldl (fun c a => a.apply c) c) = (lastSetValue g sets).getD (f c) := by
  rw [foldl_apply_field f g h sets c]
  simpa [lastSetValue] using foldl_getD_eq_lastSetValue g sets none (f c)

/-- Claim C2: at an element referencing a `StyleRule`, the cascade applies
the rule's base attribute-set first, then the attribute-sets of the matching
sub-rules in declaration order (the fold over `matchingSets`); application is
per property — each field of the outcome is the value assigned by the last
applied set that sets that property, and a property no applied set assigns
keeps its pre-rule value; appending a later set overrides exactly the
properties it sets. -/
theorem cascade_rule_application_order (heap : StyleHeap) (node : DomNode)
    (parent : Option ComputedValues) :
    resolveNode heap node parent
      = (matchingSets heap node).foldl (fun c a => a.apply c)
          (inheritFrom parent node.create)
    ∧ (∀ (sets : List CommonAttributes) (c : ComputedValues),
        (sets.foldl (fun c a => a.apply c) c).display
            = (lastSetValue (fun a => a.display) sets).getD c.display
        ∧ (sets.foldl (fun c a => a.apply c) c).text_size
            = (lastSetValue (fun a => a.text_size) sets).getD c.text_size
        ∧ (sets.foldl (fun c a => a.apply c) c).text_color
            = (lastSetValue (fun a => a.text_color) sets).getD c.text_color
        ∧ (sets.foldl (fun c a => a.apply c) c).background_color
            = (lastSetValue (fun a => a.background_color) sets).getD c.background_color
        ∧ (sets.foldl (fun c a => a.apply c) c).border_radius
            = (lastSetValue (fun a => a.border_radius) sets).getD c.border_radius
        ∧ (sets.foldl (fun c a => a.apply c) c).border_thickness
            = (lastSetValue (fun a => a.border_thickness) sets).getD c.border_thickness
        ∧ (sets.foldl (fun c a => a.apply c) c).border_color
            = (lastSetValue (fun a => a.border_color) sets).getD c.border_color)
    ∧ (∀ (α : Type) (g : CommonAttributes → Option α) (sets : List CommonAttributes)
        (a : CommonAttributes),
        lastSetValue g (sets ++ [a]) = (g a).or (lastSetValue g sets)) := by
  refine ⟨resolveNode_eq_foldl heap node parent, ?_, ?_⟩
  · intro sets c
    refine ⟨?_, ?_, ?_, ?_, ?_, ?_, ?_⟩ <;>
      exact field_foldl_lastSetValue _ _ (fun a c => rfl) sets c
  · intro α g sets a
    simp [lastSetValue]

theorem lastSetValue_of_not_set {α : Type} (g : CommonAttributes → Option α) :
    ∀ (sets : List CommonAttributes) (o : Option α), (∀ a ∈ sets, g a = none) →
      sets.foldl (fun acc a => (g a).or acc) o = o := by
  intro sets
  induction sets with
  | nil => intro o _; rfl
  | cons a rest ih =>
    intro o h
    have ha : g a = none := h a (List.mem_cons_self a rest)
    simp only [List.foldl_cons, ha, Option.none_or]
    exact ih o (fun b hb => h b (List.mem_cons_of_mem a hb))

theorem resolveNode_field_not_set {α : Type} (f : ComputedValues → α)
    (g : CommonAttributes → Option α)
    (happly : ∀ (a : CommonAttributes) (c : ComputedValues), f (a.apply c) = (g a).getD (f c))
    (heap : StyleHeap) (node : DomNode) (parent : Option ComputedValues)
    (h : setsProp g heap node = false) :
    f (resolveNode heap node parent) = f (inheritFrom parent node.create) := by
  rw [resolveNode_eq_foldl, field_foldl_lastSetValue f g happly]
  have hall : ∀ a ∈ matchingSets heap node, g a = none := by
    intro a ha
    have hna := (List.any_eq_false.mp h) a ha
    rcases hg : g a with _ | v
    · rfl
    · exact absurd (by simp [hg]) hna
  unfold lastSetValue
  rw [lastSetValue_of_not_set g (matchingSets heap node) none hall]
  rfl

/-- Claim C1: after cascade resolution at any element with a parent, the
resolved `text_size` and `text_color` equal the parent's resolved values
unless some applied set (the rule's base set or a matching sub-style) sets
them; the resolution depends on the parent only through those two fields;
and every non-inherited field (`display`, `background_color`,
`border_radius`, `border_thickness`, `border_color`) starts from the
element's own fresh defaults rather than the parent's values when no applied
set assigns it. -/
theorem cascade_inherits_only_text (heap : StyleHeap) (node : DomNode) (p : ComputedValues) :
    (setsProp (fun a => a.text_size) heap node = false →
      (resolveNode heap node (some p)).text_size = p.text_size)
    ∧ (setsProp (fun a => a.text_color) heap node = false →
      (resolveNode heap node (some p)).text_color = p.text_color)
    ∧ (∀ q1 q2 : ComputedValues, q1.text_size = q2.text_size →
        q1.text_color = q2.text_color →
        resolveNode heap node (some q1) = resolveNode heap node (some q2))
    ∧ (setsProp (fun a => a.display) heap node = false →
      (resolveNode heap node (some p)).display = node.create.display)
    ∧ (setsProp (fun a => a.background_color) heap node = false →
      (resolveNode heap node (some p)).background_color = node.create.background_color)
    ∧ (setsProp (fun a => a.border_radius) heap node = false →
      (resolveNode heap node (some p)).border_radius = node.create.border_radius)
    ∧ (setsProp (fun a => a.border_thickness) heap node = false →
      (resolveNode heap node (some p)).border_thickness = node.create.border_thickness)
    ∧ (setsProp (fun a => a.border_color) heap node = false →
      (resolveNode heap node (some p)).border_color = node.create.border_color) := by
  refine ⟨?_, ?_, ?_, ?_, ?_, ?_, ?_, ?_⟩
  · intro h
    exact resolveNode_field_not_set _ _ (fun a c => rfl) heap node (some p) h
  · intro h
    exact resolveNode_field_not_set _ _ (fun a c => rfl) heap node (some p) h
  · intro q1 q2 hts htc
    have hstart : inheritFrom (some q1) node.create = inheritFrom (some q2) node.create := by
      simp [inheritFrom, hts, htc]
    rw [resolveNode_eq_foldl, resolveNode_eq_foldl, hstart]
  · intro h
    exact resolveNode_field_not_set _ _ (fun a c => rfl) heap node (some p) h
  · intro h
    exact resolveNode_field_not_set _ _ (fun a c => rfl) heap node (some p) h
  · intro h
    exact resolveNode_field_not_set _ _ (fun a c => rfl) heap node (some p) h
  · intro h
    exact resolveNode_field_not_set _ _ (fun a c => rfl) heap node (some p) h
  · intro h
    exact resolveNode_field_not_set _ _ (fun a c => rfl) heap node (some p) h

theorem cascade_inherits_only_text_witness :
    (setsProp (fun a => a.text_size) wStyleHeap wNode = false
      ∧ setsProp (fun a => a.text_color) wStyleHeap wNode = false)
    ∧ (resolveNode wStyleHeap wNode (some wParent)).text_size = wParent.text_size
    ∧ (resolveNode wStyleHeap wNode (some wParent)).text_color = wParent.text_color :=
  ⟨⟨by decide, by decide⟩,
    (cascade_inherits_only_text wStyleHeap wNode wParent).1 (by decide),
    (cascade_inherits_only_text wStyleHeap wNode wParent).2.1 (by decide)⟩

/-- Claim C6: one cascade run over the subtree rooted at `n` publishes
exactly one whole `ResolvedAttributes` value onto each element node of the
subtree — the ids written by the log, in order, are exactly the element ids
of the subtree in traversal pre-order — and publishes nothing onto
non-element leaf content, which owns no entry of the log and is not recursed
into. -/
theorem cascade_publishes_exactly_once (heap : StyleHeap) (n : DomNode)
    (parent : Option ComputedValues) :
    (StyleEngine.update_style heap n parent).map Prod.fst = elemIds n := by
  refine @DomNode.rec
    (fun m => ∀ q : Option ComputedValues,
      (StyleEngine.update_style heap m q).map Prod.fst = elemIds m)
    (fun f => ∀ p : ComputedValues,
      (StyleEngine.updateStyleForest heap f p).map Prod.fst = elemIdsForest f)
    ?_ ?_ ?_ ?_ n parent
  · intro i cv st cs ih q
    simp only [StyleEngine.update_style, elemIds, List.map_cons, List.cons.injEq, true_and]
    exact ih _
  · intro s q
    rfl
  · intro p
    rfl
  · intro h t ih1 ih2 p
    rcases h with ⟨i, cv, st, cs⟩ | s
    · simp only [StyleEngine.updateStyleForest, elemIdsForest, List.map_append]
      rw [ih1 (some p), ih2 p]
    · simp only [StyleEngine.updateStyleForest, elemIdsForest, List.map_append]
      rw [ih2 p]
      rfl

theorem layoutNode_block_inv (fc : FontCollection) (store : ComputedStore) (i : Nat)
    (cv : ComputedValues) (sref : Option Style) (cs : DomForest) (avail : LogicalSize)
    (v : ComputedValues) (b : BlockValues) (l : LayoutTreeNode)
    (hv : store i = some v) (hd : v.display = DisplayType.Block b)
    (hl : layoutNode fc store (DomNode.elem i cv sref cs) avail = some l) :
    ∃ children, layoutBlockForest fc store b
        (LogicalSize.mk (avail.width - (b.padding.left + b.padding.right))
          (avail.height - (b.padding.top + b.padding.bottom))) 0 cs = some children
      ∧ l = finishBlock i b children := by
  simp only [layoutNode, hv, hd] at hl
  rcases hf : layoutBlockForest fc store b
      (LogicalSize.mk (avail.width - (b.padding.left + b.padding.right))
        (avail.height - (b.padding.top + b.padding.bottom))) 0 cs with _ | children
  · rw [hf] at hl
    exact absurd hl (by simp)
  · rw [hf] at hl
    exact ⟨children, rfl, (Option.some.injEq _ _ ▸ hl).symm⟩

theorem finishBlock_width (i : Nat) (b : BlockValues)
    (children : List (LogicalPoint × LayoutTreeNode)) :
    (finishBlock i b children).size.width
      = sizeAxis b.width b.min_width b.max_width (contentDerivedWidth b children)
    ∧ (finishBlock i b children).children = children
    ∧ (finishBlock i b children).margin = b.margin := by
  rcases hd : b.direction <;>
    simp [finishBlock, hd, axisSize, LayoutTreeNode.size, LayoutTreeNode.children,
      LayoutTreeNode.margin, blockMainLen, blockCrossLen, blockMainMin, blockCrossMin,
      blockMainMax, blockCrossMax, contentDerivedWidth, axisMainStart, axisMainEnd,
      axisCrossStart, axisCrossEnd]

/-- Claim C7: a block container with an explicit `width` W emits a box of
`size.width` exactly W regardless of the children's content; when `width` is
"auto" the width is the content-derived value (children's extents plus
horizontal padding) clamped to `[min_width, max_width]` — the clamp applies
to the already-computed content size, and only in the auto case. -/
theorem block_explicit_width (fc : FontCollection) (store : ComputedStore) (i : Nat)
    (cv : ComputedValues) (sref : Option Style) (cs : DomForest) (avail : LogicalSize)
    (v : ComputedValues) (b : BlockValues) (l : LayoutTreeNode)
    (hv : store i = some v) (hd : v.display = DisplayType.Block b)
    (hl : layoutNode fc store (DomNode.elem i cv sref cs) avail = some l) :
    (∀ W, b.width = some W → l.size.width = W)
    ∧ (b.width = none →
        l.size.width = clampOpt (contentDerivedWidth b l.children) b.min_width b.max_width) := by
  obtain ⟨children, _, rfl⟩ :=
    layoutNode_block_inv fc store i cv sref cs avail v b l hv hd hl
  obtain ⟨hw, hc, _⟩ := finishBlock_width i b children
  constructor
  · intro W hW
    rw [hw, hW]
    rfl
  · intro hW
    rw [hw, hc, hW]
    rfl

theorem block_explicit_width_witness :
    (w7store 0 = some w7v ∧ w7v.display = DisplayType.Block w7b ∧ w7b.width = some 30
      ∧ layoutNode loadFontCollection w7store w7tree ⟨100, 100⟩ = some w7result)
    ∧ w7result.size.width = 30 :=
  ⟨⟨rfl, rfl, rfl, rfl⟩,
    (block_explicit_width loadFontCollection w7store 0 ComputedValues.default none
      DomForest.nil ⟨100, 100⟩ w7v w7b w7result rfl rfl rfl).1 30 rfl⟩

theorem axisMainCoord_axisPoint (d : Direction) (m c : Int) :
    axisMainCoord d (axisPoint d m c) = m := by
  cases d <;> rfl

theorem layoutBlockForest_positions (fc : FontCollection) (store : ComputedStore)
    (b : BlockValues) (content : LogicalSize) (f : DomForest) :
    ∀ (consumed : Int) (cs : List (LogicalPoint × LayoutTreeNode)),
      layoutBlockForest fc store b content consumed f = some cs →
      ∀ (k : Nat) (hk : k < cs.length),
        axisMainCoord b.direction (cs.get ⟨k, hk⟩).1
          = axisMainStart b.direction b.padding + consumed
            + ((cs.take k).map (fun c => outerMain b.direction c.2)).sum
            + axisMainStart b.direction (cs.get ⟨k, hk⟩).2.margin := by
  refine @DomForest.rec (fun _ => True)
    (fun f => ∀ (consumed : Int) (cs : List (LogicalPoint × LayoutTreeNode)),
      layoutBlockForest fc store b content consumed f = some cs →
      ∀ (k : Nat) (hk : k < cs.length),
        axisMainCoord b.direction (cs.get ⟨k, hk⟩).1
          = axisMainStart b.direction b.padding + consumed
            + ((cs.take k).map (fun c => outerMain b.direction c.2)).sum
            + axisMainStart b.direction (cs.get ⟨k, hk⟩).2.margin)
    (fun _ _ _ _ _ => trivial) (fun _ => trivial) ?_ ?_ f
  · intro consumed cs hcs k hk
    simp only [layoutBlockForest] at hcs
    cases hcs
    simp at hk
  · intro h t _ ih consumed cs hcs k hk
    rcases h with ⟨i, cv, st, ccs⟩ | s
    · simp only [layoutBlockForest] at hcs
      split at hcs
      · cases hcs
      · rename_i child hn2
        split at hcs
        · cases hcs
        · rename_i rest hr2
          cases hcs
          rcases k with _ | k
          · simp only [List.get_eq_getElem, List.getElem_cons_zero, List.take_zero,
              List.map_nil, List.sum_nil, axisMainCoord_axisPoint]
            ring
          · have hk2 : k < rest.length := by
              simpa using Nat.lt_of_succ_lt_succ hk
            have ihk := ih (consumed + outerMain b.direction child) rest hr2 k hk2
            simp only [List.get_eq_getElem, List.getElem_cons_succ, List.take_succ_cons,
              List.map_cons, List.sum_cons]
            simp only [List.get_eq_getElem] at ihk
            rw [ihk]
            ring
    · simp only [layoutBlockForest] at hcs
      exact ih consumed cs hcs k hk

theorem sum_take_mono_of_nonneg (xs : List Int) (hx : ∀ x ∈ xs, 0 ≤ x)
    (j k : Nat) (hjk : j ≤ k) : (xs.take j).sum ≤ (xs.take k).sum := by
  have h2 : (xs.take k).take j = xs.take j := by
    rw [List.take_take, Nat.min_eq_left hjk]
  have h4 : (xs.take k).sum = (xs.take j).sum + ((xs.take k).drop j).sum := by
    conv_lhs => rw [← List.take_append_drop j (xs.take k)]
    rw [List.sum_append, h2]
  have h5 : (0 : Int) ≤ ((xs.take k).drop j).sum :=
    List.sum_nonneg (fun x hxm => hx x (List.mem_of_mem_take (List.mem_of_mem_drop hxm)))
  linarith

/-- Claim C8: for a block container, each laid-out child's leading edge
(position minus its own leading margin) equals the previous child's trailing
edge (leading edge plus outer extent) along the layout direction; for a
vertical container with zero padding and zero child margins, the k-th
child's vertical offset is the sum of the previous children's heights, and
with nonnegative heights no two children's vertical extents overlap. -/
theorem block_children_never_overlap (fc : FontCollection) (store : ComputedStore)
    (i : Nat) (cv : ComputedValues) (sref : Option Style) (cs : DomForest)
    (avail : LogicalSize) (v : ComputedValues) (b : BlockValues) (l : LayoutTreeNode)
    (hv : store i = some v) (hd : v.display = DisplayType.Block b)
    (hl : layoutNode fc store (DomNode.elem i cv sref cs) avail = some l) :
    (∀ (k : Nat) (hk1 : k + 1 < l.children.length),
      axisMainCoord b.direction (l.children.get ⟨k + 1, hk1⟩).1
          - axisMainStart b.direction (l.children.get ⟨k + 1, hk1⟩).2.margin
        = axisMainCoord b.direction (l.children.get ⟨k, Nat.lt_of_succ_lt hk1⟩).1
            - axisMainStart b.direction (l.children.get ⟨k, Nat.lt_of_succ_lt hk1⟩).2.margin
            + outerMain b.direction (l.children.get ⟨k, Nat.lt_of_succ_lt hk1⟩).2)
    ∧ (b.direction = Direction.Vertical →
        b.padding = LogicalSideOffsets.new_all_same 0 →
        (∀ c ∈ l.children, c.2.margin = LogicalSideOffsets.new_all_same 0) →
        (∀ (k : Nat) (hk : k < l.children.length),
          (l.children.get ⟨k, hk⟩).1.y
            = ((l.children.take k).map (fun c => c.2.size.height)).sum)
        ∧ ((∀ c ∈ l.children, 0 ≤ c.2.size.height) →
            ∀ (j k : Nat) (hj : j < l.children.length) (hk : k < l.children.length),
              j < k →
              (l.children.get ⟨j, hj⟩).1.y + (l.children.get ⟨j, hj⟩).2.size.height
                ≤ (l.children.get ⟨k, hk⟩).1.y)) := by
  obtain ⟨children, hf, rfl⟩ :=
    layoutNode_block_inv fc store i cv sref cs avail v b l hv hd hl
  have hch : (finishBlock i b children).children = children :=
    (finishBlock_width i b children).2.1
  rw [hch]
  have pos := layoutBlockForest_positions fc store b _ cs 0 children hf
  constructor
  · intro k hk1
    have hk0 : k < children.length := Nat.lt_of_succ_lt hk1
    have p1 := pos (k + 1) hk1
    have p0 := pos k hk0
    have hsum : ((children.take (k + 1)).map (fun c => outerMain b.direction c.2)).sum
        = ((children.take k).map (fun c => outerMain b.direction c.2)).sum
          + outerMain b.direction (children.get ⟨k, hk0⟩).2 := by
      rw [List.map_take, List.map_take,
        List.sum_take_succ _ k (by simpa using hk0), List.getElem_map]
      simp [List.get_eq_getElem]
    rw [p1, p0, hsum]
    ring
  · intro hdir hpad hmarg
    have part1 : ∀ (k : Nat) (hk : k < children.length),
        (children.get ⟨k, hk⟩).1.y
          = ((children.take k).map (fun c => c.2.size.height)).sum := by
      intro k hk
      have p0 := pos k hk
      rw [hdir] at p0
      have hm := hmarg (children.get ⟨k, hk⟩) (by
        simp only [List.get_eq_getElem]
        exact List.getElem_mem _)
      have hmap : (children.take k).map (fun c => outerMain Direction.Vertical c.2)
          = (children.take k).map (fun c => c.2.size.height) := by
        refine List.map_congr_left ?_
        intro c hc
        have hmc := hmarg c (List.mem_of_mem_take hc)
        simp [outerMain, axisMainStart, axisMainEnd, axisMainSize, hmc,
          LogicalSideOffsets.new_all_same]
      rw [hmap, hpad, hm] at p0
      simpa [axisMainCoord, axisMainStart, LogicalSideOffsets.new_all_same] using p0
    refine ⟨part1, ?_⟩
    intro hnn j k hj hk hjk
    have hy_j := part1 j hj
    have hy_k := part1 k hk
    have hjsucc : ((children.take (j + 1)).map (fun c => c.2.size.height)).sum
        = ((children.take j).map (fun c => c.2.size.height)).sum
          + (children.get ⟨j, hj⟩).2.size.height := by
      rw [List.map_take, List.map_take,
        List.sum_take_succ _ j (by simpa using hj), List.getElem_map]
      simp [List.get_eq_getElem]
    have hmono : ((children.take (j + 1)).map (fun c => c.2.size.height)).sum
        ≤ ((children.take k).map (fun c => c.2.size.height)).sum := by
      rw [List.map_take, List.map_take]
      refine sum_take_mono_of_nonneg _ ?_ (j + 1) k hjk
      intro x hx
      rcases List.mem_map.mp hx with ⟨c, hc, rfl⟩
      exact hnn c hc
    rw [hy_j, hy_k]
    rw [← hjsucc] at *
    linarith [hjsucc, hmono]

theorem block_children_never_overlap_witness :
    (w8store 0 = some w8v0 ∧ w8v0.display = DisplayType.Block BlockValues.default
      ∧ layoutNode loadFontCollection w8store w8tree ⟨100, 100⟩ = some w8result
      ∧ BlockValues.default.direction = Direction.Vertical
      ∧ BlockValues.default.padding = LogicalSideOffsets.new_all_same 0
      ∧ (∀ c ∈ w8result.children, c.2.margin = LogicalSideOffsets.new_all_same 0))
    ∧ (w8result.children.get ⟨1, by decide⟩).1.y = 10 := by
  refine ⟨⟨rfl, rfl, rfl, rfl, rfl, by decide⟩, ?_⟩
  have h := ((block_children_never_overlap loadFontCollection w8store 0
    ComputedValues.default none w8forest ⟨100, 100⟩ w8v0 BlockValues.default w8result
    rfl rfl rfl).2 rfl rfl (by decide)).1 1 (by decide)
  exact h.trans (by decide)
